import Mathlib

/-!
Shallow embedding of the Chembot question-classification and
context-ranking pipeline (src/utils.py, src/_search_engine.py,
src/_bot_engine.py, src/prompts.py).

Strings are modelled as `String` / `List Char`.  Python's Unicode-aware
`str.lower()` and the regex class `\w` are modelled on their ASCII parts
(every keyword, token and message in the program is ASCII); the chemistry
glyphs that the code's allow-list regex names explicitly (degree sign,
subscript digits, arrows) are carried verbatim.
-/

/-- Whitespace characters recognised by Python's `str.split`, `str.strip`
and the regex class `\s` (ASCII part). -/
def isSpaceCh (c : Char) : Bool :=
  c = ' ' || c = '\t' || c = '\n' || c = '\r' || c = '\x0b' || c = '\x0c'

/-- Lower-casing of one character as in Python `str.lower` (ASCII part;
`Char.toLower` maps exactly the letters A-Z, which covers every keyword
the program compares against). -/
def lowerStr (l : List Char) : List Char := l.map Char.toLower

/-- Substring containment: the semantics of Python's `pat in s` for strings. -/
def containsSub (pat : List Char) : List Char → Bool
  | [] => pat.isEmpty
  | c :: rest => pat.isPrefixOf (c :: rest) || containsSub pat rest

/-- Python `str.strip` on the right end: drop trailing whitespace. -/
def stripEnd : List Char → List Char
  | [] => []
  | c :: cs =>
    if stripEnd cs = [] then (if isSpaceCh c then [] else [c])
    else c :: stripEnd cs

/-- Python `str.strip()`: drop leading and trailing whitespace. -/
def stripStr (l : List Char) : List Char := stripEnd (l.dropWhile isSpaceCh)

/-! ## Classifier — `categorize_question`, src/utils.py lines 96-128 -/

/-- Safety-related keywords (src/utils.py line 109). -/
def safety_words : List (List Char) :=
  ["safe", "hazard", "danger", "toxic", "risk", "accident", "emergency"].map String.toList

/-- Calculation keywords (src/utils.py line 114). -/
def calc_words : List (List Char) :=
  ["calculate", "compute", "find", "determine", "solve", "how much",
   "what is the"].map String.toList

/-- Design keywords (src/utils.py line 119). -/
def design_words : List (List Char) :=
  ["design", "size", "select", "choose", "optimize", "specify"].map String.toList

/-- Theory keywords (src/utils.py line 124). -/
def theory_words : List (List Char) :=
  ["explain", "what is", "how does", "why", "difference", "compare"].map String.toList

/-- Python `any(word in question_lower for word in words)`. -/
def keywordMatch (ws : List (List Char)) (ql : List Char) : Bool :=
  ws.any (fun w => containsSub w ql)

/-- `categorize_question` (src/utils.py lines 96-128): keyword-set tests
against the lower-cased question, in the order safety, calculation,
design, theory; first match wins, otherwise "general". -/
def categorize_question (question : String) : String :=
  if keywordMatch safety_words (lowerStr question.toList) then "safety"
  else if keywordMatch calc_words (lowerStr question.toList) then "calculation"
  else if keywordMatch design_words (lowerStr question.toList) then "design"
  else if keywordMatch theory_words (lowerStr question.toList) then "theory"
  else "general"

/-! ## Input validation — `validate_input`, src/utils.py lines 130-154 -/

/-- Disallowed test tokens (src/utils.py line 150). -/
def inappropriate_words : List (List Char) :=
  ["spam", "test123", "asdf"].map String.toList

/-- `validate_input` (src/utils.py lines 130-154).  Python's
`if not question or not question.strip()` is equivalent to the stripped
text being empty. -/
def validate_input (question : String) : Bool × String :=
  if stripStr question.toList = [] then
    (false, "Please enter a question.")
  else if (stripStr question.toList).length < 3 then
    (false, "Please enter a more detailed question.")
  else if 1000 < question.toList.length then
    (false, "Question is too long. Please keep it under 1000 characters.")
  else if inappropriate_words.any (fun w => containsSub w (lowerStr question.toList)) then
    (false, "Please enter a genuine chemical engineering question.")
  else (true, "")

/-! ## Helper lemmas for the classifier -/

theorem categorize_eq_safety {q : String}
    (h : keywordMatch safety_words (lowerStr q.toList) = true) :
    categorize_question q = "safety" := by
  unfold categorize_question
  rw [h]
  rfl

theorem categorize_eq_calculation {q : String}
    (h0 : keywordMatch safety_words (lowerStr q.toList) = false)
    (h1 : keywordMatch calc_words (lowerStr q.toList) = true) :
    categorize_question q = "calculation" := by
  unfold categorize_question
  rw [h0, h1]
  rfl

theorem categorize_eq_design {q : String}
    (h0 : keywordMatch safety_words (lowerStr q.toList) = false)
    (h1 : keywordMatch calc_words (lowerStr q.toList) = false)
    (h2 : keywordMatch design_words (lowerStr q.toList) = true) :
    categorize_question q = "design" := by
  unfold categorize_question
  rw [h0, h1, h2]
  rfl

theorem categorize_eq_theory {q : String}
    (h0 : keywordMatch safety_words (lowerStr q.toList) = false)
    (h1 : keywordMatch calc_words (lowerStr q.toList) = false)
    (h2 : keywordMatch design_words (lowerStr q.toList) = false)
    (h3 : keywordMatch theory_words (lowerStr q.toList) = true) :
    categorize_question q = "theory" := by
  unfold categorize_question
  rw [h0, h1, h2, h3]
  rfl

theorem categorize_eq_general {q : String}
    (h0 : keywordMatch safety_words (lowerStr q.toList) = false)
    (h1 : keywordMatch calc_words (lowerStr q.toList) = false)
    (h2 : keywordMatch design_words (lowerStr q.toList) = false)
    (h3 : keywordMatch theory_words (lowerStr q.toList) = false) :
    categorize_question q = "general" := by
  unfold categorize_question
  rw [h0, h1, h2, h3]
  rfl

/-! ## Claim theorems: C1, C10, C7 -/

/-- C1: classification applies keyword-set tests against the lower-cased
question in the fixed priority order safety, calculation, design, theory,
with substring containment matching; the first matching set determines the
category (so a question containing both a safety keyword and a calculation
keyword is classified "safety"), and a question matching no keyword set is
classified "general". -/
theorem c1_classify_fixed_priority_order :
    (∀ q : String, keywordMatch safety_words (lowerStr q.toList) = true →
      categorize_question q = "safety")
  ∧ (∀ q : String, keywordMatch safety_words (lowerStr q.toList) = false →
      keywordMatch calc_words (lowerStr q.toList) = true →
      categorize_question q = "calculation")
  ∧ (∀ q : String, keywordMatch safety_words (lowerStr q.toList) = false →
      keywordMatch calc_words (lowerStr q.toList) = false →
      keywordMatch design_words (lowerStr q.toList) = true →
      categorize_question q = "design")
  ∧ (∀ q : String, keywordMatch safety_words (lowerStr q.toList) = false →
      keywordMatch calc_words (lowerStr q.toList) = false →
      keywordMatch design_words (lowerStr q.toList) = false →
      keywordMatch theory_words (lowerStr q.toList) = true →
      categorize_question q = "theory")
  ∧ (∀ q : String, keywordMatch safety_words (lowerStr q.toList) = false →
      keywordMatch calc_words (lowerStr q.toList) = false →
      keywordMatch design_words (lowerStr q.toList) = false →
      keywordMatch theory_words (lowerStr q.toList) = false →
      categorize_question q = "general") :=
  ⟨fun _ h => categorize_eq_safety h,
   fun _ h0 h1 => categorize_eq_calculation h0 h1,
   fun _ h0 h1 h2 => categorize_eq_design h0 h1 h2,
   fun _ h0 h1 h2 h3 => categorize_eq_theory h0 h1 h2 h3,
   fun _ h0 h1 h2 h3 => categorize_eq_general h0 h1 h2 h3⟩

/-- Witness for C1: a question containing both a safety keyword ("safe")
and a calculation keyword ("calculate") is classified "safety"; a question
matching no keyword set is classified "general". -/
theorem c1_classify_fixed_priority_order_witness :
    categorize_question "Is it safe to calculate the flow" = "safety" ∧
    categorize_question "hello world" = "general" :=
  ⟨c1_classify_fixed_priority_order.1 _ (by decide),
   c1_classify_fixed_priority_order.2.2.2.2 _ (by decide) (by decide) (by decide) (by decide)⟩

/-- C10: a question that contains the substring "what is the" (after
lower-casing) and matches no safety keyword is classified "calculation",
never "theory": "what is the" is in the calculation keyword list, which is
tested before the theory keyword list. -/
theorem c10_what_is_the_is_calculation :
    ∀ q : String, containsSub "what is the".toList (lowerStr q.toList) = true →
      keywordMatch safety_words (lowerStr q.toList) = false →
      categorize_question q = "calculation" := by
  intro q hsub hsafe
  refine categorize_eq_calculation hsafe ?_
  have hmem : "what is the".toList ∈ calc_words := by decide
  simp only [keywordMatch, List.any_eq_true]
  exact ⟨_, hmem, hsub⟩

/-- Witness for C10: "What is the enthalpy difference" contains the theory
keywords "what is" and "difference" as well, yet is classified
"calculation". -/
theorem c10_what_is_the_is_calculation_witness :
    categorize_question "What is the enthalpy difference" = "calculation" :=
  c10_what_is_the_is_calculation _ (by decide) (by decide)

/-- C7: validation rejects the empty question with the empty-question
message, rejects a non-empty question whose trimmed length is below 3 with
the more-detail message, rejects a question longer than 1000 characters
(that passed the earlier checks) with the length message, rejects any
question containing a disallowed test token, and accepts a question of
exactly 3 non-trivial characters. -/
theorem c7_validate_input_rules :
    validate_input "" = (false, "Please enter a question.")
  ∧ (∀ q : String, stripStr q.toList ≠ [] → (stripStr q.toList).length < 3 →
      validate_input q = (false, "Please enter a more detailed question."))
  ∧ (∀ q : String, stripStr q.toList ≠ [] → ¬ (stripStr q.toList).length < 3 →
      1000 < q.toList.length →
      validate_input q = (false, "Question is too long. Please keep it under 1000 characters."))
  ∧ (∀ q : String, inappropriate_words.any (fun w => containsSub w (lowerStr q.toList)) = true →
      (validate_input q).1 = false)
  ∧ validate_input "abc" = (true, "") := by
  refine ⟨by decide, fun q h1 h2 => ?_, fun q h1 h2 h3 => ?_, fun q h => ?_, by decide⟩
  · unfold validate_input
    rw [if_neg h1, if_pos h2]
  · unfold validate_input
    rw [if_neg h1, if_neg h2, if_pos h3]
  · unfold validate_input
    split_ifs with g1 g2 g3 <;> rfl

theorem stripEnd_replicate_a : ∀ m : Nat, stripEnd (List.replicate m 'a') = List.replicate m 'a' := by
  intro m
  induction m with
  | zero => rfl
  | succ k ih =>
    rw [List.replicate_succ]
    simp only [stripEnd, ih]
    cases k with
    | zero => decide
    | succ k2 => simp [List.replicate_succ]

theorem stripStr_replicate_a (n : Nat) :
    stripStr (List.replicate n 'a') = List.replicate n 'a' := by
  cases n with
  | zero => rfl
  | succ k =>
    have hdrop : List.dropWhile isSpaceCh (List.replicate (k + 1) 'a') =
        List.replicate (k + 1) 'a' := by
      rw [List.replicate_succ]
      exact List.dropWhile_cons_of_neg (by decide)
    rw [stripStr, hdrop, stripEnd_replicate_a]

/-- Witness for C7: "hi" (2 characters) is rejected with the more-detail
message; a 1001-character question is rejected with the length message; a
question containing the token "spam" is rejected. -/
theorem c7_validate_input_rules_witness :
    validate_input "hi" = (false, "Please enter a more detailed question.")
  ∧ validate_input ((List.replicate 1001 'a').asString) =
      (false, "Question is too long. Please keep it under 1000 characters.")
  ∧ (validate_input "explain spam filters").1 = false := by
  refine ⟨c7_validate_input_rules.2.1 "hi" (by decide) (by decide), ?_,
          c7_validate_input_rules.2.2.2.1 "explain spam filters" (by decide)⟩
  refine c7_validate_input_rules.2.2.1 _ ?_ ?_ ?_
  · show stripStr (List.replicate 1001 'a') ≠ []
    rw [stripStr_replicate_a]
    intro hcontra
    have hlen := congrArg List.length hcontra
    rw [List.length_replicate] at hlen
    exact absurd hlen (by decide)
  · show ¬ (stripStr (List.replicate 1001 'a')).length < 3
    rw [stripStr_replicate_a, List.length_replicate]
    decide
  · show 1000 < (List.replicate 1001 'a').length
    rw [List.length_replicate]
    decide

/-! ## Search engine — src/_search_engine.py -/

/-- One search-result dictionary as produced by the providers
`_search_wikipedia` and `_search_educational_sites` (src/_search_engine.py):
title, url, snippet, source label and integer priority.  Every producer in
the file sets all five keys, so the `dict.get` defaults never fire. -/
structure SearchResult where
  title : String
  url : String
  snippet : String
  source : String
  priority : Int
deriving DecidableEq, Repr

/-- First pass of `_deduplicate_results` (src/_search_engine.py lines
171-179): walk the list keeping a set of seen urls; a result is kept only
if its url is non-empty (Python's `if url`) and has not been seen. -/
def dedupByUrlAux (seen : List String) : List SearchResult → List SearchResult
  | [] => []
  | r :: rs =>
    if r.url ≠ "" ∧ r.url ∉ seen then r :: dedupByUrlAux (r.url :: seen) rs
    else dedupByUrlAux seen rs

/-- The deduplication pass of `_deduplicate_results`, starting from an
empty seen-set. -/
def dedupByUrl (results : List SearchResult) : List SearchResult :=
  dedupByUrlAux [] results

/-- One insertion step of a stable descending sort by priority: the new
element (which came earlier in the input) is placed before the first
element whose priority does not exceed it, hence before all equal-priority
elements that came later. -/
def insertByPriority (r : SearchResult) : List SearchResult → List SearchResult
  | [] => [r]
  | s :: ss =>
    if s.priority ≤ r.priority then r :: s :: ss else s :: insertByPriority r ss

/-- Python's `sorted(unique_results, key=lambda x: x.get('priority', 0),
reverse=True)` (src/_search_engine.py line 181).  Python's sort is stable
also under `reverse=True`; a stable sort is unique as a function, so this
insertion sort computes the same list. -/
def sortByPriorityDesc : List SearchResult → List SearchResult
  | [] => []
  | r :: rs => insertByPriority r (sortByPriorityDesc rs)

/-- `_deduplicate_results` (src/_search_engine.py lines 169-181):
deduplicate by url, then sort by priority descending. -/
def deduplicate_results (results : List SearchResult) : List SearchResult :=
  sortByPriorityDesc (dedupByUrl results)

/-- `_scrape_search_results` (src/_search_engine.py lines 59-88) with the
provider invocations abstracted as the candidate lists they return:
concatenate in provider order, deduplicate and sort, keep at most
`max_results = 5`. -/
def scrape_search_results (providerResults : List (List SearchResult)) : List SearchResult :=
  (deduplicate_results providerResults.flatten).take 5

/-- The `From {source}: {snippet}` entries built by `get_relevant_context`
(src/_search_engine.py lines 233-239): only the top 3 search results are
considered, and only those with a non-empty snippet contribute a line. -/
def contextParts (searchResults : List SearchResult) : List String :=
  (searchResults.take 3).filterMap
    (fun r => if r.snippet = "" then none
              else some ("From " ++ r.source ++ ": " ++ r.snippet))

/-- `get_relevant_context` (src/_search_engine.py lines 216-245): empty
when the search returned nothing, otherwise the context entries joined by
blank lines. -/
def get_relevant_context (providerResults : List (List SearchResult)) : String :=
  if scrape_search_results providerResults = [] then ""
  else String.intercalate "\n\n" (contextParts (scrape_search_results providerResults))

/-! ## Deduplication lemmas -/

theorem dedupByUrlAux_cons_pos {r : SearchResult} {seen : List String}
    (h : r.url ≠ "" ∧ r.url ∉ seen) (rs : List SearchResult) :
    dedupByUrlAux seen (r :: rs) = r :: dedupByUrlAux (r.url :: seen) rs := by
  simp only [dedupByUrlAux]
  rw [if_pos h]

theorem dedupByUrlAux_cons_neg {r : SearchResult} {seen : List String}
    (h : ¬ (r.url ≠ "" ∧ r.url ∉ seen)) (rs : List SearchResult) :
    dedupByUrlAux seen (r :: rs) = dedupByUrlAux seen rs := by
  simp only [dedupByUrlAux]
  rw [if_neg h]

theorem dedupByUrlAux_sublist : ∀ (l : List SearchResult) (seen : List String),
    List.Sublist (dedupByUrlAux seen l) l := by
  intro l
  induction l with
  | nil => intro seen; exact List.Sublist.refl _
  | cons r rs ih =>
    intro seen
    by_cases h : r.url ≠ "" ∧ r.url ∉ seen
    · rw [dedupByUrlAux_cons_pos h]
      exact List.Sublist.cons₂ r (ih _)
    · rw [dedupByUrlAux_cons_neg h]
      exact List.Sublist.cons r (ih seen)

theorem dedupByUrlAux_urls : ∀ (l : List SearchResult) (seen : List String),
    (∀ r ∈ dedupByUrlAux seen l, r.url ≠ "" ∧ r.url ∉ seen) ∧
    ((dedupByUrlAux seen l).map (fun r => r.url)).Nodup := by
  intro l
  induction l with
  | nil =>
    intro seen
    exact ⟨fun r hr => absurd hr (List.not_mem_nil r), List.nodup_nil⟩
  | cons r rs ih =>
    intro seen
    by_cases h : r.url ≠ "" ∧ r.url ∉ seen
    · rw [dedupByUrlAux_cons_pos h]
      obtain ⟨ihmem, ihnd⟩ := ih (r.url :: seen)
      constructor
      · intro x hx
        rcases List.mem_cons.1 hx with hx | hx
        · exact hx ▸ h
        · obtain ⟨h1, h2⟩ := ihmem x hx
          exact ⟨h1, fun hc => h2 (List.mem_cons_of_mem _ hc)⟩
      · rw [List.map_cons]
        refine List.nodup_cons.2 ⟨?_, ihnd⟩
        intro hc
        rcases List.mem_map.1 hc with ⟨y, hy, hyeq⟩
        exact (ihmem y hy).2 (by rw [hyeq]; exact List.mem_cons_self _ _)
    · rw [dedupByUrlAux_cons_neg h]
      exact ih seen

theorem dedupByUrlAux_find : ∀ (l : List SearchResult) (seen : List String) (u : String),
    u ≠ "" → u ∉ seen →
    (dedupByUrlAux seen l).find? (fun r => r.url == u) = l.find? (fun r => r.url == u) := by
  intro l
  induction l with
  | nil => intro _ _ _ _; rfl
  | cons r rs ih =>
    intro seen u hu hus
    by_cases hru : r.url = u
    · have hcond : r.url ≠ "" ∧ r.url ∉ seen := by rw [hru]; exact ⟨hu, hus⟩
      have hpa : (fun x : SearchResult => x.url == u) r = true := by
        simp [hru]
      rw [dedupByUrlAux_cons_pos hcond,
          @List.find?_cons_of_pos _ (fun x : SearchResult => x.url == u) r
            (dedupByUrlAux (r.url :: seen) rs) hpa,
          @List.find?_cons_of_pos _ (fun x : SearchResult => x.url == u) r rs hpa]
    · have hpa : ¬ ((fun x : SearchResult => x.url == u) r = true) := by simp [hru]
      rw [@List.find?_cons_of_neg _ (fun x : SearchResult => x.url == u) r rs hpa]
      by_cases h : r.url ≠ "" ∧ r.url ∉ seen
      · rw [dedupByUrlAux_cons_pos h,
            @List.find?_cons_of_neg _ (fun x : SearchResult => x.url == u) r
              (dedupByUrlAux (r.url :: seen) rs) hpa]
        refine ih _ u hu ?_
        intro hc
        rcases List.mem_cons.1 hc with hc | hc
        · exact hru hc.symm
        · exact hus hc
      · rw [dedupByUrlAux_cons_neg h]
        exact ih seen u hu hus

theorem dedupByUrlAux_mem_url : ∀ (l : List SearchResult) (seen : List String)
    (r : SearchResult), r ∈ l → r.url ≠ "" → r.url ∉ seen →
    r.url ∈ (dedupByUrlAux seen l).map (fun x => x.url) := by
  intro l
  induction l with
  | nil => intro seen r hr; exact absurd hr (List.not_mem_nil r)
  | cons x xs ih =>
    intro seen r hr hne hns
    by_cases h : x.url ≠ "" ∧ x.url ∉ seen
    · rw [dedupByUrlAux_cons_pos h, List.map_cons]
      by_cases hxr : r.url = x.url
      · rw [hxr]
        exact List.mem_cons_self _ _
      · rcases List.mem_cons.1 hr with rfl | hr2
        · exact absurd rfl hxr
        · refine List.mem_cons_of_mem _ (ih (x.url :: seen) r hr2 hne ?_)
          intro hc
          rcases List.mem_cons.1 hc with hc | hc
          · exact hxr hc
          · exact hns hc
    · rw [dedupByUrlAux_cons_neg h]
      rcases List.mem_cons.1 hr with rfl | hr2
      · exact absurd ⟨hne, hns⟩ h
      · exact ih seen r hr2 hne hns

/-! ## Sorting lemmas -/

/-- Order relation of the descending priority sort: `a` may come before
`b` when `b`'s priority does not exceed `a`'s. -/
def priGE (a b : SearchResult) : Prop := b.priority ≤ a.priority

theorem insertByPriority_cons_pos {r s : SearchResult} (h : s.priority ≤ r.priority)
    (ss : List SearchResult) : insertByPriority r (s :: ss) = r :: s :: ss := by
  simp only [insertByPriority]
  rw [if_pos h]

theorem insertByPriority_cons_neg {r s : SearchResult} (h : ¬ s.priority ≤ r.priority)
    (ss : List SearchResult) :
    insertByPriority r (s :: ss) = s :: insertByPriority r ss := by
  simp only [insertByPriority]
  rw [if_neg h]

theorem perm_insertByPriority (r : SearchResult) :
    ∀ l, List.Perm (insertByPriority r l) (r :: l) := by
  intro l
  induction l with
  | nil => exact List.Perm.refl _
  | cons s ss ih =>
    by_cases h : s.priority ≤ r.priority
    · rw [insertByPriority_cons_pos h]
    · rw [insertByPriority_cons_neg h]
      exact (ih.cons s).trans (List.Perm.swap r s ss)

theorem perm_sortByPriorityDesc : ∀ l, List.Perm (sortByPriorityDesc l) l := by
  intro l
  induction l with
  | nil => exact List.Perm.refl _
  | cons r rs ih =>
    exact (perm_insertByPriority r (sortByPriorityDesc rs)).trans (ih.cons r)

theorem mem_sortByPriorityDesc {x : SearchResult} {l : List SearchResult} :
    x ∈ sortByPriorityDesc l ↔ x ∈ l :=
  (perm_sortByPriorityDesc l).mem_iff

theorem mem_insertByPriority {x r : SearchResult} {l : List SearchResult} :
    x ∈ insertByPriority r l ↔ x = r ∨ x ∈ l := by
  rw [(perm_insertByPriority r l).mem_iff, List.mem_cons]

theorem pairwise_insertByPriority {r : SearchResult} :
    ∀ {l}, l.Pairwise priGE → (insertByPriority r l).Pairwise priGE := by
  intro l
  induction l with
  | nil => intro _; exact List.pairwise_singleton _ _
  | cons s ss ih =>
    intro h
    by_cases hc : s.priority ≤ r.priority
    · rw [insertByPriority_cons_pos hc]
      refine List.Pairwise.cons ?_ h
      intro x hx
      rcases List.mem_cons.1 hx with rfl | hx2
      · exact hc
      · exact le_trans (List.rel_of_pairwise_cons h hx2) hc
    · rw [insertByPriority_cons_neg hc]
      refine List.Pairwise.cons ?_ (ih (List.Pairwise.of_cons h))
      intro x hx
      rcases mem_insertByPriority.1 hx with rfl | hx2
      · exact le_of_lt (lt_of_not_le hc)
      · exact List.rel_of_pairwise_cons h hx2

theorem pairwise_sortByPriorityDesc : ∀ l, (sortByPriorityDesc l).Pairwise priGE := by
  intro l
  induction l with
  | nil => exact List.Pairwise.nil
  | cons r rs ih => exact pairwise_insertByPriority ih

theorem filter_insertByPriority (p : Int) (r : SearchResult) : ∀ l,
    (insertByPriority r l).filter (fun x => x.priority == p) =
      (r :: l).filter (fun x => x.priority == p) := by
  intro l
  induction l with
  | nil => rfl
  | cons s ss ih =>
    by_cases hc : s.priority ≤ r.priority
    · rw [insertByPriority_cons_pos hc]
    · rw [insertByPriority_cons_neg hc]
      by_cases hs : (s.priority == p) = true <;> by_cases hr : (r.priority == p) = true
      · exact absurd (le_of_eq ((beq_iff_eq.1 hs).trans (beq_iff_eq.1 hr).symm)) hc
      · simp [List.filter_cons, hs, hr, ih]
      · simp [List.filter_cons, hs, hr, ih]
      · simp [List.filter_cons, hs, hr, ih]

theorem filter_sortByPriorityDesc (p : Int) : ∀ l : List SearchResult,
    (sortByPriorityDesc l).filter (fun x => x.priority == p) =
      l.filter (fun x => x.priority == p) := by
  intro l
  induction l with
  | nil => rfl
  | cons r rs ih =>
    show (insertByPriority r (sortByPriorityDesc rs)).filter (fun x => x.priority == p) =
      (r :: rs).filter (fun x => x.priority == p)
    rw [filter_insertByPriority]
    simp [List.filter_cons, ih]

/-! ## Claim theorems: C2, C3, C4 -/

/-- C2: `_deduplicate_results` keeps, for each non-empty url, only the
first-seen candidate with that url, in original relative order, and then
sorts by priority descending with a stable sort.  Conjuncts: the concrete
example of the claim; the result is sorted descending by priority; for
every priority value, the result's candidates of that priority are exactly
the deduplicated list's candidates of that priority in the same order
(stability); deduplication only drops elements (sublist), leaves pairwise
distinct urls, keeps for each non-empty url exactly the first-seen
candidate (`find?` agrees with the input), and drops no non-empty url that
occurs in the input. -/
theorem c2_dedup_first_seen_then_stable_sort :
    deduplicate_results
        [{ title := "", url := "A", snippet := "", source := "", priority := 1 },
         { title := "", url := "B", snippet := "", source := "", priority := 5 },
         { title := "", url := "A", snippet := "", source := "", priority := 9 }] =
      [{ title := "", url := "B", snippet := "", source := "", priority := 5 },
       { title := "", url := "A", snippet := "", source := "", priority := 1 }]
  ∧ (∀ l : List SearchResult, (deduplicate_results l).Pairwise priGE)
  ∧ (∀ (l : List SearchResult) (p : Int),
      (deduplicate_results l).filter (fun x => x.priority == p) =
        (dedupByUrl l).filter (fun x => x.priority == p))
  ∧ (∀ l : List SearchResult, List.Sublist (dedupByUrl l) l)
  ∧ (∀ l : List SearchResult, ((dedupByUrl l).map (fun r => r.url)).Nodup)
  ∧ (∀ (l : List SearchResult) (u : String), u ≠ "" →
      (dedupByUrl l).find? (fun r => r.url == u) = l.find? (fun r => r.url == u))
  ∧ (∀ (l : List SearchResult) (r : SearchResult), r ∈ l → r.url ≠ "" →
      r.url ∈ (dedupByUrl l).map (fun x => x.url)) := by
  refine ⟨by decide, fun l => pairwise_sortByPriorityDesc _,
          fun l p => filter_sortByPriorityDesc p _,
          fun l => dedupByUrlAux_sublist l [],
          fun l => (dedupByUrlAux_urls l []).2,
          fun l u hu => dedupByUrlAux_find l [] u hu (List.not_mem_nil u),
          fun l r hr hne => dedupByUrlAux_mem_url l [] r hr hne (List.not_mem_nil _)⟩

/-- Witness for C2: the hypothesis-bearing conjuncts applied at a concrete
list: the kept candidate for url "X" is the first-seen one, and url "X"
survives deduplication. -/
theorem c2_dedup_first_seen_then_stable_sort_witness :
    (dedupByUrl
        [{ title := "", url := "X", snippet := "", source := "", priority := 2 },
         { title := "", url := "X", snippet := "", source := "", priority := 7 }]).find?
        (fun r => r.url == "X") =
      ([{ title := "", url := "X", snippet := "", source := "", priority := 2 },
        { title := "", url := "X", snippet := "", source := "", priority := 7 }] :
          List SearchResult).find? (fun r => r.url == "X")
  ∧ ({ title := "", url := "X", snippet := "", source := "", priority := 2 } :
        SearchResult).url ∈
      (dedupByUrl
        [{ title := "", url := "X", snippet := "", source := "", priority := 2 },
         { title := "", url := "X", snippet := "", source := "", priority := 7 }]).map
        (fun x => x.url) := by
  constructor
  · exact c2_dedup_first_seen_then_stable_sort.2.2.2.2.2.1 _ "X" (by decide)
  · exact c2_dedup_first_seen_then_stable_sort.2.2.2.2.2.2 _ _
      (List.mem_cons_self _ _) (by decide)

/-- C3 counterexample: candidates with an empty url are dropped by
`_deduplicate_results`, not kept: a list of two empty-url candidates
deduplicates to the empty list, because Python's `if url and url not in
seen_urls` is false for an empty url. -/
theorem c3_empty_url_kept_counterexample :
    deduplicate_results
        [{ title := "t1", url := "", snippet := "s1", source := "Web", priority := 5 },
         { title := "t2", url := "", snippet := "s2", source := "Web", priority := 3 }] = []
  ∧ ([{ title := "t1", url := "", snippet := "s1", source := "Web", priority := 5 },
      { title := "t2", url := "", snippet := "s2", source := "Web", priority := 3 }] :
        List SearchResult).length = 2 := by decide

/-- C3 amended: during deduplication every candidate whose url is empty is
dropped; no empty-url candidate ever appears in the deduplicated result. -/
theorem c3_empty_url_dropped :
    ∀ (l : List SearchResult) (r : SearchResult),
      r ∈ deduplicate_results l → r.url ≠ "" := by
  intro l r hr
  have hr2 : r ∈ dedupByUrl l := mem_sortByPriorityDesc.1 hr
  exact ((dedupByUrlAux_urls l []).1 r hr2).1

/-- Witness for C3 amended: applied to a concrete list with one non-empty
url. -/
theorem c3_empty_url_dropped_witness :
    ({ title := "", url := "X", snippet := "", source := "", priority := 1 } :
      SearchResult).url ≠ "" :=
  c3_empty_url_dropped
    [{ title := "", url := "X", snippet := "", source := "", priority := 1 }] _
    (by decide)

/-- C4: for every set of provider results, at most 3 entries contribute
lines to the rendered context text: `get_relevant_context` renders exactly
the `contextParts` of the scraped results, and that list never has more
than 3 entries, however many candidates the providers return. -/
theorem c4_context_bundle_at_most_three :
    (∀ providerResults : List (List SearchResult),
      (contextParts (scrape_search_results providerResults)).length ≤ 3)
  ∧ (∀ providerResults : List (List SearchResult),
      get_relevant_context providerResults = "" ∨
        get_relevant_context providerResults =
          String.intercalate "\n\n" (contextParts (scrape_search_results providerResults))) := by
  constructor
  · intro prs
    calc (contextParts (scrape_search_results prs)).length
        ≤ ((scrape_search_results prs).take 3).length :=
          List.length_filterMap_le _ _
      _ ≤ 3 := List.length_take_le _ _
  · intro prs
    unfold get_relevant_context
    split
    · exact Or.inl rfl
    · exact Or.inr rfl

/-! ## Text normalizer — `clean_text`, src/utils.py lines 11-34 -/

/-- Word characters of the regex class `\w` (ASCII part: letters, digits
and the underscore). -/
def isWordCh (c : Char) : Bool := c.isAlpha || c.isDigit || c = '_'

/-- The characters the allow-list regex of `clean_text` names explicitly
besides `\w` and `\s`: parentheses, `+ - = / \`, the degree sign,
subscript digits and arrow glyphs. -/
def extraAllowed : List Char :=
  ['(', ')', '+', '-', '=', '/', '\\', '°', '₀', '₁', '₂', '₃', '₄',
   '₅', '₆', '₇', '₈', '₉', '→', '←', '↔']

/-- A character matched by the allow-list class
`[\w\s()+\-=/\\°₀₁₂₃₄₅₆₇₈₉→←↔]` of `clean_text` (src/utils.py line 29). -/
def isAllowedCh (c : Char) : Bool :=
  isWordCh c || isSpaceCh c || extraAllowed.contains c

/-- Python `text.split()`: the maximal whitespace-free words of a text, in
order; `cur` holds the current word reversed. -/
def wordsAux (cur : List Char) : List Char → List (List Char)
  | [] => if cur = [] then [] else [cur.reverse]
  | c :: cs =>
    if isSpaceCh c then
      (if cur = [] then wordsAux [] cs else cur.reverse :: wordsAux [] cs)
    else wordsAux (c :: cur) cs

/-- Python `' '.join(ws)`: join a word list with single spaces. -/
def render : List (List Char) → List Char
  | [] => []
  | w :: ws => if ws = [] then w else w ++ ' ' :: render ws

/-- Step 2 of `clean_text`: `re.sub` replaces each character outside the
allow-list class by a space. -/
def mapAllowed (l : List Char) : List Char :=
  l.map (fun c => if isAllowedCh c then c else ' ')

/-- Step 3 of `clean_text`: `re.sub(r'\s+', ' ', text)` — every maximal
whitespace run becomes one space.  The boolean state records whether the
previous character was whitespace; the substitution itself starts at
`false`, the `true` entry point (which also swallows a leading run) is
used by the lemmas below. -/
def collapseAux (prevWs : Bool) : List Char → List Char
  | [] => []
  | c :: cs =>
    if isSpaceCh c then
      (if prevWs then collapseAux true cs else ' ' :: collapseAux true cs)
    else c :: collapseAux false cs

/-- `clean_text` (src/utils.py lines 11-34) on character lists:
`' '.join(text.split())`, then the allow-list substitution, then a final
whitespace collapse and `strip()`; `if not text` is the empty check. -/
def cleanTextL (l : List Char) : List Char :=
  if l = [] then []
  else stripStr (collapseAux false (mapAllowed (render (wordsAux [] l))))

/-- `clean_text` on strings. -/
def clean_text (text : String) : String := (cleanTextL text.toList).asString

/-- The allow-list as claim C5 words it: letters, digits, space,
parentheses, `+ - = / \`, degree sign, subscript digits, arrow glyphs —
no underscore. -/
def isClaimAllowedCh (c : Char) : Bool :=
  c.isAlpha || c.isDigit || isSpaceCh c || extraAllowed.contains c

/-- The normalizer as claim C5 words it: collapse whitespace runs, remove
(delete) every character outside the claimed allow-list, re-collapse
whitespace, trim both ends. -/
def clean_text_claimed (text : String) : String :=
  (stripStr (collapseAux false
    ((collapseAux false text.toList).filter isClaimAllowedCh))).asString

/-- The normalizer as the amended claim C5 words it: collapse whitespace
runs to single spaces, replace every character outside the allow-list of
word characters (letters, digits, underscore), whitespace, parentheses,
`+ - = / \`, degree sign, subscript digits and arrow glyphs by a space,
re-collapse whitespace, trim both ends. -/
def clean_text_amended (text : String) : String :=
  (stripStr (collapseAux false (mapAllowed (collapseAux false text.toList)))).asString

/-! ## Equation lemmas for the normalizer -/

theorem wordsAux_nil (cur : List Char) :
    wordsAux cur [] = if cur = [] then [] else [cur.reverse] := rfl

theorem wordsAux_cons (cur : List Char) (c : Char) (cs : List Char) :
    wordsAux cur (c :: cs) =
      if isSpaceCh c then
        (if cur = [] then wordsAux [] cs else cur.reverse :: wordsAux [] cs)
      else wordsAux (c :: cur) cs := rfl

theorem render_cons (w : List Char) (ws : List (List Char)) :
    render (w :: ws) = if ws = [] then w else w ++ ' ' :: render ws := rfl

theorem collapseAux_cons (b : Bool) (c : Char) (cs : List Char) :
    collapseAux b (c :: cs) =
      if isSpaceCh c then
        (if b then collapseAux true cs else ' ' :: collapseAux true cs)
      else c :: collapseAux false cs := rfl

theorem stripEnd_nil : stripEnd [] = [] := rfl

theorem render_nil : render [] = [] := rfl

theorem stripEnd_cons (c : Char) (cs : List Char) :
    stripEnd (c :: cs) =
      if stripEnd cs = [] then (if isSpaceCh c then [] else [c])
      else c :: stripEnd cs := rfl

theorem mapAllowed_nil : mapAllowed [] = [] := rfl

theorem mapAllowed_cons (c : Char) (cs : List Char) :
    mapAllowed (c :: cs) = (if isAllowedCh c then c else ' ') :: mapAllowed cs := rfl

theorem isAllowedCh_of_space {c : Char} (h : isSpaceCh c = true) :
    isAllowedCh c = true := by
  simp [isAllowedCh, h]

theorem mapAllowed_cons_ws {c : Char} (h : isSpaceCh c = true) (cs : List Char) :
    mapAllowed (c :: cs) = c :: mapAllowed cs := by
  rw [mapAllowed_cons, if_pos (isAllowedCh_of_space h)]

/-! ## Structural lemmas for the normalizer -/

theorem collapseAux_dropWhile : ∀ (l : List Char) (b : Bool),
    (collapseAux b l).dropWhile isSpaceCh = collapseAux true l := by
  intro l
  induction l with
  | nil => intro b; rfl
  | cons c cs ih =>
    intro b
    by_cases hc : isSpaceCh c = true
    · rw [collapseAux_cons, collapseAux_cons, if_pos hc, if_pos hc, if_pos rfl]
      cases b with
      | true => exact ih true
      | false =>
        rw [if_neg (by simp)]
        rw [List.dropWhile_cons_of_pos (by decide : isSpaceCh ' ' = true)]
        exact ih true
    · rw [collapseAux_cons, collapseAux_cons, if_neg hc, if_neg hc]
      exact List.dropWhile_cons_of_neg hc

theorem stripEnd_append : ∀ (a b : List Char),
    stripEnd (a ++ b) = if stripEnd b = [] then stripEnd a else a ++ stripEnd b := by
  intro a b
  induction a with
  | nil =>
    by_cases hb : stripEnd b = []
    · rw [List.nil_append, if_pos hb, hb, stripEnd_nil]
    · rw [List.nil_append, if_neg hb, List.nil_append]
  | cons c a' ih =>
    rw [List.cons_append, stripEnd_cons, ih]
    by_cases hb : stripEnd b = []
    · rw [if_pos hb, if_pos hb, stripEnd_cons]
    · rw [if_neg hb, if_neg hb]
      have hne : ¬ (a' ++ stripEnd b) = [] := by
        intro hcontra
        exact hb (List.append_eq_nil.1 hcontra).2
      rw [if_neg hne, List.cons_append]

theorem stripEnd_eq_nil : ∀ l : List Char,
    stripEnd l = [] ↔ ∀ c ∈ l, isSpaceCh c = true := by
  intro l
  induction l with
  | nil => simp [stripEnd_nil]
  | cons c cs ih =>
    rw [stripEnd_cons]
    constructor
    · intro h
      by_cases h2 : stripEnd cs = []
      · rw [if_pos h2] at h
        by_cases hc : isSpaceCh c = true
        · intro x hx
          rcases List.mem_cons.1 hx with rfl | hx2
          · exact hc
          · exact ih.1 h2 x hx2
        · rw [if_neg hc] at h
          cases h
      · rw [if_neg h2] at h
        cases h
    · intro h
      have h2 : stripEnd cs = [] := ih.2 (fun x hx => h x (List.mem_cons_of_mem _ hx))
      rw [if_pos h2, if_pos (h c (List.mem_cons_self _ _))]

theorem stripEnd_all_nonws : ∀ l : List Char,
    (∀ c ∈ l, isSpaceCh c = false) → stripEnd l = l := by
  intro l
  induction l with
  | nil => intro _; rfl
  | cons c cs ih =>
    intro h
    have hcs : stripEnd cs = cs := ih (fun x hx => h x (List.mem_cons_of_mem _ hx))
    rw [stripEnd_cons, hcs]
    cases cs with
    | nil =>
      rw [if_pos rfl]
      rw [if_neg (by rw [h c (List.mem_cons_self _ _)]; simp)]
    | cons d ds => rw [if_neg (by simp)]

theorem wordsAux_append_word : ∀ (w cur rest : List Char),
    (∀ c ∈ w, isSpaceCh c = false) →
    wordsAux cur (w ++ rest) = wordsAux (w.reverse ++ cur) rest := by
  intro w
  induction w with
  | nil => intro cur rest _; rfl
  | cons c w' ih =>
    intro cur rest h
    rw [List.cons_append, wordsAux_cons,
        if_neg (by rw [h c (List.mem_cons_self _ _)]; simp),
        ih (c :: cur) rest (fun x hx => h x (List.mem_cons_of_mem _ hx))]
    rw [List.reverse_cons, List.append_assoc, List.singleton_append]

theorem wordsAux_words_prop : ∀ (l cur : List Char),
    (∀ c ∈ cur, isSpaceCh c = false) →
    ∀ w ∈ wordsAux cur l, w ≠ [] ∧ ∀ c ∈ w, isSpaceCh c = false := by
  intro l
  induction l with
  | nil =>
    intro cur hcur w hw
    rw [wordsAux_nil] at hw
    by_cases h : cur = []
    · rw [if_pos h] at hw
      cases hw
    · rw [if_neg h] at hw
      rcases List.mem_singleton.1 hw with rfl
      refine ⟨by simpa using h, ?_⟩
      intro c hc
      exact hcur c (List.mem_reverse.1 hc)
  | cons c cs ih =>
    intro cur hcur w hw
    rw [wordsAux_cons] at hw
    by_cases hc : isSpaceCh c = true
    · rw [if_pos hc] at hw
      by_cases h : cur = []
      · rw [if_pos h] at hw
        exact ih [] (by intro x hx; cases hx) w hw
      · rw [if_neg h] at hw
        rcases List.mem_cons.1 hw with rfl | hw2
        · refine ⟨by simpa using h, ?_⟩
          intro x hx
          exact hcur x (List.mem_reverse.1 hx)
        · exact ih [] (by intro x hx; cases hx) w hw2
    · rw [if_neg hc] at hw
      refine ih (c :: cur) ?_ w hw
      intro x hx
      rcases List.mem_cons.1 hx with rfl | hx2
      · exact Bool.eq_false_iff.2 hc
      · exact hcur x hx2

theorem wordsAux_chars : ∀ (l cur w : List Char), w ∈ wordsAux cur l →
    ∀ c ∈ w, c ∈ cur ∨ c ∈ l := by
  intro l
  induction l with
  | nil =>
    intro cur w hw c hc
    rw [wordsAux_nil] at hw
    by_cases h : cur = []
    · rw [if_pos h] at hw
      cases hw
    · rw [if_neg h] at hw
      rcases List.mem_singleton.1 hw with rfl
      exact Or.inl (List.mem_reverse.1 hc)
  | cons a cs ih =>
    intro cur w hw c hc
    rw [wordsAux_cons] at hw
    by_cases ha : isSpaceCh a = true
    · rw [if_pos ha] at hw
      by_cases h : cur = []
      · rw [if_pos h] at hw
        rcases ih [] w hw c hc with h2 | h2
        · cases h2
        · exact Or.inr (List.mem_cons_of_mem _ h2)
      · rw [if_neg h] at hw
        rcases List.mem_cons.1 hw with rfl | hw2
        · exact Or.inl (List.mem_reverse.1 hc)
        · rcases ih [] w hw2 c hc with h2 | h2
          · cases h2
          · exact Or.inr (List.mem_cons_of_mem _ h2)
    · rw [if_neg ha] at hw
      rcases ih (a :: cur) w hw c hc with h2 | h2
      · rcases List.mem_cons.1 h2 with rfl | h3
        · exact Or.inr (List.mem_cons_self _ _)
        · exact Or.inl h3
      · exact Or.inr (List.mem_cons_of_mem _ h2)

theorem render_eq_nil : ∀ ws : List (List Char), (∀ w ∈ ws, w ≠ []) →
    (render ws = [] ↔ ws = []) := by
  intro ws h
  cases ws with
  | nil => simp [render_nil]
  | cons w ws' =>
    rw [render_cons]
    constructor
    · intro h2
      by_cases hw : ws' = []
      · rw [if_pos hw] at h2
        exact absurd h2 (h w (List.mem_cons_self _ _))
      · rw [if_neg hw] at h2
        rcases List.append_eq_nil.1 h2 with ⟨_, h4⟩
        cases h4
    · intro h2
      cases h2

theorem collapseAux_nil (b : Bool) : collapseAux b [] = [] := rfl

theorem bool_eq_false {b : Bool} (h : ¬ b = true) : b = false := by
  cases b
  · rfl
  · exact absurd rfl h

/-- Normal-form lemma: trimming the collapse of a text renders exactly its
whitespace-delimited words joined by single spaces; the second conjunct
carries the mid-word state (`cur` is the reversed current word, made of
non-whitespace characters). -/
theorem stripEnd_collapse_spec : ∀ cs : List Char,
    (stripEnd (collapseAux true cs) = render (wordsAux [] cs)) ∧
    (∀ cur : List Char, cur ≠ [] → (∀ c ∈ cur, isSpaceCh c = false) →
      stripEnd (cur.reverse ++ collapseAux false cs) = render (wordsAux cur cs)) := by
  intro cs
  induction cs with
  | nil =>
    constructor
    · rfl
    · intro cur hne hnws
      rw [collapseAux_nil, List.append_nil, wordsAux_nil, if_neg hne, render_cons, if_pos rfl]
      exact stripEnd_all_nonws _ (fun c hc => hnws c (List.mem_reverse.1 hc))
  | cons c cs' ih =>
    obtain ⟨ih1, ih2⟩ := ih
    constructor
    · by_cases hc : isSpaceCh c = true
      · rw [collapseAux_cons, if_pos hc, if_pos rfl, wordsAux_cons, if_pos hc, if_pos rfl]
        exact ih1
      · rw [collapseAux_cons, if_neg hc, wordsAux_cons, if_neg hc]
        have h2 := ih2 [c] (by simp) (by
          intro x hx
          rcases List.mem_singleton.1 hx with rfl
          exact bool_eq_false hc)
        rw [List.reverse_singleton, List.singleton_append] at h2
        exact h2
    · intro cur hne hnws
      by_cases hc : isSpaceCh c = true
      · have hsp : isSpaceCh ' ' = true := by decide
        rw [collapseAux_cons, if_pos hc, if_neg (by simp),
            wordsAux_cons, if_pos hc, if_neg hne, render_cons, stripEnd_append]
        have hstep : stripEnd (' ' :: collapseAux true cs') =
            if wordsAux [] cs' = [] then [] else ' ' :: render (wordsAux [] cs') := by
          rw [stripEnd_cons, ih1]
          by_cases hR : wordsAux [] cs' = []
          · rw [hR, render_nil, if_pos rfl, if_pos rfl, if_pos hsp]
          · have hprop := wordsAux_words_prop cs' []
              (fun x hx => absurd hx (List.not_mem_nil x))
            have hRr : ¬ render (wordsAux [] cs') = [] := by
              intro hcontra
              exact hR ((render_eq_nil _ (fun w hw => (hprop w hw).1)).1 hcontra)
            rw [if_neg hRr, if_neg hR]
        rw [hstep]
        by_cases hR : wordsAux [] cs' = []
        · rw [if_pos hR]
          rw [if_pos hR]
          rw [if_pos rfl]
          exact stripEnd_all_nonws _ (fun x hx => hnws x (List.mem_reverse.1 hx))
        · rw [if_neg hR]
          rw [if_neg hR]
          rw [if_neg (by simp : ¬ (' ' :: render (wordsAux [] cs')) = [])]
      · rw [collapseAux_cons, if_neg hc, wordsAux_cons, if_neg hc]
        have h2 := ih2 (c :: cur) (by simp) (by
          intro x hx
          rcases List.mem_cons.1 hx with rfl | hx2
          · exact bool_eq_false hc
          · exact hnws x hx2)
        rw [List.reverse_cons, List.append_assoc, List.singleton_append] at h2
        exact h2

/-- The allow-list substitution commutes with whitespace collapsing as far
as word decomposition is concerned: the words of the substituted collapsed
text are the words of the substituted original text. -/
theorem words_map_collapse : ∀ cs : List Char,
    (wordsAux [] (mapAllowed (collapseAux true cs)) = wordsAux [] (mapAllowed cs)) ∧
    (∀ cur : List Char,
      wordsAux cur (mapAllowed (collapseAux false cs)) = wordsAux cur (mapAllowed cs)) := by
  intro cs
  induction cs with
  | nil => exact ⟨rfl, fun _ => rfl⟩
  | cons c cs' ih =>
    obtain ⟨ih1, ih2⟩ := ih
    constructor
    · by_cases hc : isSpaceCh c = true
      · rw [collapseAux_cons, if_pos hc, if_pos rfl, mapAllowed_cons_ws hc,
            wordsAux_cons, if_pos hc, if_pos rfl]
        exact ih1
      · rw [collapseAux_cons, if_neg hc, mapAllowed_cons, mapAllowed_cons]
        by_cases hm : isSpaceCh (if isAllowedCh c then c else ' ') = true
        · rw [wordsAux_cons, wordsAux_cons, if_pos hm, if_pos hm, if_pos rfl, if_pos rfl]
          exact ih2 []
        · rw [wordsAux_cons, wordsAux_cons, if_neg hm, if_neg hm]
          exact ih2 _
    · intro cur
      by_cases hc : isSpaceCh c = true
      · have hsp : isSpaceCh ' ' = true := by decide
        rw [collapseAux_cons, if_pos hc, if_neg (by simp), mapAllowed_cons_ws hsp,
            mapAllowed_cons_ws hc, wordsAux_cons, wordsAux_cons, if_pos hsp, if_pos hc]
        by_cases hcur : cur = []
        · rw [if_pos hcur, if_pos hcur]
          exact ih1
        · rw [if_neg hcur, if_neg hcur, ih1]
      · rw [collapseAux_cons, if_neg hc, mapAllowed_cons, mapAllowed_cons]
        by_cases hm : isSpaceCh (if isAllowedCh c then c else ' ') = true
        · rw [wordsAux_cons, wordsAux_cons, if_pos hm, if_pos hm]
          by_cases hcur : cur = []
          · rw [if_pos hcur, if_pos hcur]
            exact ih2 []
          · rw [if_neg hcur, if_neg hcur, ih2 []]
        · rw [wordsAux_cons, wordsAux_cons, if_neg hm, if_neg hm]
          exact ih2 _

theorem wordsAux_map_all_ws : ∀ (xs : List Char),
    (∀ c ∈ xs, isSpaceCh c = true) →
    ∀ cur, wordsAux cur (mapAllowed xs) = wordsAux cur [] := by
  intro xs
  induction xs with
  | nil => intro _ _; rfl
  | cons c xs' ih =>
    intro h cur
    have hc : isSpaceCh c = true := h c (List.mem_cons_self _ _)
    have ih2 := ih (fun x hx => h x (List.mem_cons_of_mem _ hx))
    rw [mapAllowed_cons_ws hc, wordsAux_cons, if_pos hc]
    by_cases hcur : cur = []
    · rw [if_pos hcur, ih2 [], hcur]
    · rw [if_neg hcur, ih2 [], wordsAux_nil, wordsAux_nil, if_pos rfl, if_neg hcur]

/-- Trailing-whitespace removal does not change the word decomposition of
the substituted text. -/
theorem words_map_stripEnd : ∀ (x cur : List Char),
    wordsAux cur (mapAllowed (stripEnd x)) = wordsAux cur (mapAllowed x) := by
  intro x
  induction x with
  | nil => intro _; rfl
  | cons c xs ih =>
    intro cur
    rw [stripEnd_cons]
    by_cases h : stripEnd xs = []
    · have hall : ∀ x' ∈ xs, isSpaceCh x' = true := (stripEnd_eq_nil xs).1 h
      rw [if_pos h]
      by_cases hc : isSpaceCh c = true
      · rw [if_pos hc, mapAllowed_nil, wordsAux_nil,
            wordsAux_map_all_ws (c :: xs) (by
              intro y hy
              rcases List.mem_cons.1 hy with rfl | hy2
              · exact hc
              · exact hall y hy2) cur,
            wordsAux_nil]
      · rw [if_neg hc, mapAllowed_cons, mapAllowed_cons, mapAllowed_nil]
        by_cases hm : isSpaceCh (if isAllowedCh c then c else ' ') = true
        · rw [wordsAux_cons, wordsAux_cons, if_pos hm, if_pos hm,
              wordsAux_map_all_ws xs hall []]
        · rw [wordsAux_cons, wordsAux_cons, if_neg hm, if_neg hm,
              wordsAux_map_all_ws xs hall]
    · rw [if_neg h, mapAllowed_cons, mapAllowed_cons]
      by_cases hm : isSpaceCh (if isAllowedCh c then c else ' ') = true
      · rw [wordsAux_cons, wordsAux_cons, if_pos hm, if_pos hm]
        by_cases hcur : cur = []
        · rw [if_pos hcur, if_pos hcur]
          exact ih []
        · rw [if_neg hcur, if_neg hcur, ih []]
      · rw [wordsAux_cons, wordsAux_cons, if_neg hm, if_neg hm]
        exact ih _

theorem stripStr_eq (l : List Char) :
    stripStr l = stripEnd (l.dropWhile isSpaceCh) := rfl

/-- Master normal form of `clean_text`: the initial `' '.join(text.split())`
pre-pass is absorbed by the final collapse-and-strip, so `clean_text` is
exactly: substitute disallowed characters by spaces, then join the words
of the result with single spaces. -/
theorem cleanTextL_eq_render_words : ∀ l : List Char,
    cleanTextL l = render (wordsAux [] (mapAllowed l)) := by
  intro l
  by_cases hl : l = []
  · rw [hl]
    rfl
  · unfold cleanTextL
    rw [if_neg hl, stripStr_eq, collapseAux_dropWhile, (stripEnd_collapse_spec _).1,
        ← (stripEnd_collapse_spec l).1, words_map_stripEnd, (words_map_collapse l).1]

theorem mapAllowed_chars : ∀ (l : List Char) (c : Char),
    c ∈ mapAllowed l → isAllowedCh c = true := by
  intro l c hc
  rcases List.mem_map.1 hc with ⟨a, -, rfl⟩
  show isAllowedCh (if isAllowedCh a then a else ' ') = true
  by_cases ha : isAllowedCh a = true
  · rw [if_pos ha]
    exact ha
  · rw [if_neg ha]
    decide

theorem mapAllowed_fixed : ∀ l : List Char,
    (∀ c ∈ l, isAllowedCh c = true) → mapAllowed l = l := by
  intro l
  induction l with
  | nil => intro _; rfl
  | cons c cs ih =>
    intro h
    rw [mapAllowed_cons, if_pos (h c (List.mem_cons_self _ _)),
        ih (fun x hx => h x (List.mem_cons_of_mem _ hx))]

theorem render_chars : ∀ (ws : List (List Char)) (c : Char), c ∈ render ws →
    (∃ w ∈ ws, c ∈ w) ∨ c = ' ' := by
  intro ws
  induction ws with
  | nil =>
    intro c hc
    rw [render_nil] at hc
    exact absurd hc (List.not_mem_nil c)
  | cons w ws' ih =>
    intro c hc
    rw [render_cons] at hc
    by_cases hw : ws' = []
    · rw [if_pos hw] at hc
      exact Or.inl ⟨w, List.mem_cons_self _ _, hc⟩
    · rw [if_neg hw] at hc
      rcases List.mem_append.1 hc with hc2 | hc2
      · exact Or.inl ⟨w, List.mem_cons_self _ _, hc2⟩
      · rcases List.mem_cons.1 hc2 with rfl | hc3
        · exact Or.inr rfl
        · rcases ih c hc3 with ⟨w2, hw2, hcw2⟩ | h2
          · exact Or.inl ⟨w2, List.mem_cons_of_mem _ hw2, hcw2⟩
          · exact Or.inr h2

/-- Word decomposition inverts rendering: joining non-empty whitespace-free
words with single spaces and splitting again gives back the words. -/
theorem wordsAux_render : ∀ ws : List (List Char),
    (∀ w ∈ ws, w ≠ [] ∧ ∀ c ∈ w, isSpaceCh c = false) →
    wordsAux [] (render ws) = ws := by
  intro ws
  induction ws with
  | nil => intro _; rfl
  | cons w ws' ih =>
    intro h
    obtain ⟨hw, hwc⟩ := h w (List.mem_cons_self _ _)
    rw [render_cons]
    by_cases hws : ws' = []
    · rw [if_pos hws]
      have hword := wordsAux_append_word w [] [] hwc
      rw [List.append_nil, List.append_nil] at hword
      rw [hword, wordsAux_nil, if_neg (by simpa using hw), List.reverse_reverse, hws]
    · rw [if_neg hws]
      rw [wordsAux_append_word w [] (' ' :: render ws') hwc, List.append_nil,
          wordsAux_cons, if_pos (by decide : isSpaceCh ' ' = true),
          if_neg (by simpa using hw), List.reverse_reverse,
          ih (fun x hx => h x (List.mem_cons_of_mem _ hx))]

/-! ## Claim theorems: C5, C6 -/

/-- C5 counterexample: on input "a_b!c" the code returns "a_b c": the
underscore is kept (the regex class `\w` contains it, the claimed
allow-list does not), and the disallowed '!' is replaced by a space rather
than removed; the normalizer as the claim words it returns "abc". -/
theorem c5_clean_text_counterexample :
    clean_text "a_b!c" = "a_b c"
  ∧ clean_text_claimed "a_b!c" = "abc"
  ∧ ("a_b c" : String) ≠ "abc"
  ∧ '_' ∈ (clean_text "a_b!c").toList
  ∧ isClaimAllowedCh '_' = false := by decide

/-- C5 amended: `clean_text` collapses whitespace runs to single spaces,
replaces (rather than removes) every character outside the allow-list of
word characters (letters, digits, underscore), whitespace, parentheses,
`+ - = / \`, the degree sign, subscript digits and arrow glyphs by a
space, re-collapses whitespace and trims both ends; empty input yields
the empty string. -/
theorem c5_clean_text_amended_behavior :
    (∀ s : String, clean_text s = clean_text_amended s)
  ∧ clean_text "" = "" := by
  constructor
  · intro s
    unfold clean_text clean_text_amended
    rw [List.asString_inj, cleanTextL_eq_render_words, stripStr_eq, collapseAux_dropWhile,
        (stripEnd_collapse_spec _).1, (words_map_collapse s.toList).2 []]
  · rfl

/-- C6: the text normalizer is idempotent: applying `clean_text` twice
gives the same result as applying it once. -/
theorem c6_clean_text_idempotent :
    ∀ x : String, clean_text (clean_text x) = clean_text x := by
  intro x
  unfold clean_text
  rw [List.asString_inj, List.toList_asString, cleanTextL_eq_render_words,
      cleanTextL_eq_render_words]
  have hprop := wordsAux_words_prop (mapAllowed x.toList) []
    (fun c hc => absurd hc (List.not_mem_nil c))
  have hfix : mapAllowed (render (wordsAux [] (mapAllowed x.toList))) =
      render (wordsAux [] (mapAllowed x.toList)) := by
    apply mapAllowed_fixed
    intro c hc
    rcases render_chars _ c hc with ⟨w, hmem, hcw⟩ | rfl
    · rcases wordsAux_chars (mapAllowed x.toList) [] w hmem c hcw with h2 | h2
      · exact absurd h2 (List.not_mem_nil c)
      · exact mapAllowed_chars _ c h2
    · decide
  rw [hfix, wordsAux_render _ hprop]

/-! ## Source extraction — `_extract_sources_from_context`,
src/_bot_engine.py lines 178-189 -/

/-- One attempt of the regex `From ([^:]+):` at the current position:
the literal `From `, then a non-empty greedy run of non-colon characters,
then a colon; returns the captured label and the remaining text. -/
def matchFromAt : List Char → Option (List Char × List Char)
  | 'F' :: 'r' :: 'o' :: 'm' :: ' ' :: rest =>
    match rest.dropWhile (fun c => c != ':') with
    | ':' :: rem =>
      if rest.takeWhile (fun c => c != ':') = [] then none
      else some (rest.takeWhile (fun c => c != ':'), rem)
    | _ => none
  | _ => none

/-- Non-overlapping scan of `re.findall(r'From ([^:]+):', text)`: after a
match continue behind it, otherwise advance one character.  The fuel is an
upper bound on the number of steps; every step consumes at least one
character, so the text length suffices. -/
def findFromLabelsAux : Nat → List Char → List (List Char)
  | 0, _ => []
  | fuel + 1, s =>
    match matchFromAt s with
    | some (label, rem) => label :: findFromLabelsAux fuel rem
    | none =>
      match s with
      | [] => []
      | _ :: rest => findFromLabelsAux fuel rest

def findFromLabels (s : List Char) : List (List Char) :=
  findFromLabelsAux s.length s

/-- Python `list(set(...))`, modelled as first-occurrence deduplication:
the set's iteration order is unspecified, only the underlying set of
labels is claimed. -/
def dedupFirst (seen : List String) : List String → List String
  | [] => []
  | s :: rest =>
    if seen.contains s then dedupFirst seen rest
    else s :: dedupFirst (s :: seen) rest

/-- `_extract_sources_from_context` (src/_bot_engine.py lines 178-189):
collect every `From <label>:` occurrence, strip each label, remove
duplicates. -/
def extract_sources_from_context (web_context : String) : List String :=
  dedupFirst [] ((findFromLabels web_context.toList).map (fun l => (stripStr l).asString))

theorem dedupFirst_cons (seen : List String) (a : String) (rest : List String) :
    dedupFirst seen (a :: rest) =
      if seen.contains a then dedupFirst seen rest
      else a :: dedupFirst (a :: seen) rest := rfl

theorem dedupFirst_spec : ∀ (l seen : List String),
    (∀ s ∈ dedupFirst seen l, seen.contains s = false) ∧ (dedupFirst seen l).Nodup := by
  intro l
  induction l with
  | nil =>
    intro seen
    exact ⟨fun s hs => absurd hs (List.not_mem_nil s), List.nodup_nil⟩
  | cons a rest ih =>
    intro seen
    rw [dedupFirst_cons]
    by_cases hc : seen.contains a = true
    · rw [if_pos hc]
      exact ih seen
    · rw [if_neg hc]
      obtain ⟨ih1, ih2⟩ := ih (a :: seen)
      constructor
      · intro s hs
        rcases List.mem_cons.1 hs with rfl | hs2
        · exact bool_eq_false hc
        · have h2 := ih1 s hs2
          rw [List.contains_cons] at h2
          exact bool_eq_false (fun hcontra => by rw [hcontra] at h2; simp at h2)
      · refine List.nodup_cons.2 ⟨?_, ih2⟩
        intro hmem
        have h2 := ih1 a hmem
        rw [List.contains_cons] at h2
        simp at h2

/-- C9: source extraction scans the context text for the pattern
`From <label>:`, collecting each distinct trimmed label with duplicates
removed; applied to "From Wikipedia: text\n\nFrom Educational: text" it
yields exactly the labels "Wikipedia" and "Educational" (order not
significant; the model fixes first-occurrence order, Python's set order is
unspecified), and the result never contains duplicates. -/
theorem c9_extract_sources_pattern :
    extract_sources_from_context "From Wikipedia: text\n\nFrom Educational: text" =
      ["Wikipedia", "Educational"]
  ∧ (∀ s : String,
      s ∈ extract_sources_from_context "From Wikipedia: text\n\nFrom Educational: text" ↔
        (s = "Wikipedia" ∨ s = "Educational"))
  ∧ (∀ ctx : String, (extract_sources_from_context ctx).Nodup) := by
  have h : extract_sources_from_context "From Wikipedia: text\n\nFrom Educational: text" =
      ["Wikipedia", "Educational"] := by decide
  refine ⟨h, fun s => ?_, fun ctx => (dedupFirst_spec _ []).2⟩
  rw [h]
  simp

/-! ## Prompt composer — src/prompts.py -/

/-- `SYSTEM_PROMPT` (src/prompts.py lines 7-28). -/
def SYSTEM_PROMPT : String :=
  "\nYou are an expert Chemical Engineering assistant designed to help chemical engineering students and professionals.\n\nYour expertise includes:\n- Process design and optimization\n- Unit operations (distillation, absorption, extraction, etc.)\n- Reaction engineering and kinetics\n- Transport phenomena (heat, mass, and momentum transfer)\n- Thermodynamics and phase equilibria\n- Process safety and HAZOP analysis\n- Equipment design and selection\n- Process control and instrumentation\n\nGuidelines for responses:\n1. Always prioritize safety considerations\n2. Provide clear, step-by-step explanations\n3. Include relevant equations when applicable\n4. Mention real-world applications\n5. Use proper chemical engineering terminology\n6. Cite reliable sources when possible\n7. For calculations, show units and assumptions\n"

/-- `QUESTION_TYPES` (src/prompts.py lines 30-66) as an association list;
"general" has no entry. -/
def QUESTION_TYPES : List (String × String) :=
  [("calculation",
    "\n    This is a calculation question. Please:\n    1. Identify the given parameters and what needs to be calculated\n    2. State relevant equations and principles\n    3. Show step-by-step solution with units\n    4. Verify the reasonableness of the result\n    5. Mention any assumptions made\n    "),
   ("theory",
    "\n    This is a theoretical question. Please:\n    1. Provide clear conceptual explanation\n    2. Include fundamental principles\n    3. Give practical examples or applications\n    4. Explain the significance in chemical engineering\n    5. Mention related concepts\n    "),
   ("safety",
    "\n    This is a safety-related question. Please:\n    1. Prioritize safety information\n    2. Mention relevant safety standards and regulations\n    3. Include hazard identification and risk assessment\n    4. Provide emergency procedures if applicable\n    5. Cite authoritative safety sources\n    "),
   ("design",
    "\n    This is a design question. Please:\n    1. Outline the design approach and methodology\n    2. Identify key design parameters and constraints\n    3. Suggest appropriate equipment or process configuration\n    4. Consider economic and safety factors\n    5. Mention industry standards and best practices\n    ")]

/-- `RESPONSE_FORMAT` (src/prompts.py lines 68-89). -/
def RESPONSE_FORMAT : String :=
  "\nStructure your response as follows:\n\n**Overview:** Brief summary of the topic/answer\n\n**Detailed Explanation:** \n- Key concepts and principles\n- Step-by-step analysis (if applicable)\n- Relevant equations and calculations\n\n**Safety Considerations:** (if applicable)\n- Hazards and risks\n- Safety measures and precautions\n\n**Practical Applications:**\n- Real-world examples\n- Industry relevance\n\n**Additional Resources:** (if applicable)\n- Relevant standards or references\n- Further reading suggestions\n"

/-- `get_chemE_prompt` (src/prompts.py lines 91-117): system framing,
category instructions when the category is in the table, response
structure, the context block when non-empty, the question, a trailing
cue. -/
def get_chemE_prompt (question question_type search_context : String) : String :=
  let p1 := SYSTEM_PROMPT ++ "\n\n"
  let p2 := match QUESTION_TYPES.find? (fun e => e.1 == question_type) with
    | some e => p1 ++ e.2 ++ "\n\n"
    | none => p1
  let p3 := p2 ++ RESPONSE_FORMAT ++ "\n\n"
  let p4 := if search_context ≠ "" then
      p3 ++ "**Additional Context from Current Sources:**\n" ++ search_context ++ "\n\n"
    else p3
  p4 ++ "**Student Question:** " ++ question ++ "\n\n" ++ "**Your Response:**"

/-! ## Response formatter — `format_response_for_display`,
src/utils.py lines 156-196 -/

/-- Python `text.split('\n\n')`: split on the literal two-newline
separator, left to right, non-overlapping. -/
def splitBlank : List Char → List (List Char)
  | [] => [[]]
  | '\n' :: '\n' :: rest => [] :: splitBlank rest
  | c :: rest =>
    match splitBlank rest with
    | [] => [[c]]
    | seg :: segs => (c :: seg) :: segs

/-- Python `text.split('\n')`. -/
def splitNL : List Char → List (List Char)
  | [] => [[]]
  | '\n' :: rest => [] :: splitNL rest
  | c :: rest =>
    match splitNL rest with
    | [] => [[c]]
    | seg :: segs => (c :: seg) :: segs

/-- Python `sep.join(xs)`. -/
def joinWith (sep : List Char) : List (List Char) → List Char
  | [] => []
  | [x] => x
  | x :: xs => x ++ sep ++ joinWith sep xs

/-- One section of `format_response_for_display`: strip, drop if empty,
rewrite a bold-framed section into a heading, strip each line (the bullet
branches of the source are pass-through). -/
def formatSection (sec : List Char) : Option (List Char) :=
  let s := stripStr sec
  if s = [] then none
  else
    let s2 := if "**".toList.isPrefixOf s ∧ "**".toList.isSuffixOf s then
        "\n### ".toList ++ (s.drop 2).take ((s.drop 2).length - 2) ++ "\n".toList
      else s
    some (joinWith "\n".toList ((splitNL s2).map stripStr))

/-- `format_response_for_display` (src/utils.py lines 156-196). -/
def format_response_for_display (response : String) : String :=
  if response.toList = [] then "No response generated."
  else
    (joinWith "\n\n".toList
      ((splitBlank response.toList).filterMap formatSection)).asString

/-! ## Bot engine — `ask`, src/_bot_engine.py lines 43-122 -/

/-- One entry of `conversation_history` (src/_bot_engine.py lines
97-103); `time.time()` is modelled as a natural number. -/
structure Turn where
  question : String
  answer : String
  question_type : String
  sources : List String
  timestamp : Nat
deriving DecidableEq, Repr

/-- The dictionary `ask` returns.  The invalid-input return value carries
no `web_context_used` key, modelled as `none`. -/
structure AskResponse where
  answer : String
  sources : List String
  question_type : String
  processing_time : Nat
  web_context_used : Option Bool
deriving DecidableEq, Repr

/-- `_generate_ai_response` (src/_bot_engine.py lines 124-176): the model
call is the opaque completion oracle `genText`; an empty completion text
is replaced by the fixed fallback message.  The source's attribute
`is_initialized` is the parameter `isInit`.  The `except` branch cannot
fire in this model because the oracle is a total function. -/
def generate_ai_response (genText : String → String) (isInit : Bool)
    (question question_type web_context : String) : String :=
  if isInit = false then
    "Sorry, the AI system is not properly initialized. Please check the API configuration."
  else
    let resp := genText (get_chemE_prompt question question_type web_context)
    if resp = "" then
      "I apologize, but I couldn't generate a response to your question. Please try rephrasing it or asking a different question."
    else resp

/-- `ask` (src/_bot_engine.py lines 43-122): validate, then classify,
fetch context (`getContext` stands for the search engine, whose network
part is opaque at this level), extract sources, call the completion
oracle, format and append to the conversation history.  `elapsed` is the
measured wall-clock duration of a successful run, `now` the timestamp;
the streamlit interaction log is a display-sink effect outside the model,
and the `except` branch is dead because the oracles are total. -/
def ask (getContext genText : String → String) (isInit : Bool)
    (now elapsed : Nat) (include_web_search : Bool) (hist : List Turn)
    (question : String) : AskResponse × List Turn :=
  if (validate_input question).1 = false then
    ({ answer := (validate_input question).2, sources := [],
       question_type := "error", processing_time := 0,
       web_context_used := none }, hist)
  else
    let question_type := categorize_question question
    let web_context := if include_web_search then getContext question else ""
    let sources := if web_context ≠ "" then extract_sources_from_context web_context
      else []
    let formatted := format_response_for_display
      (generate_ai_response genText isInit question question_type web_context)
    ({ answer := formatted, sources := sources, question_type := question_type,
       processing_time := elapsed, web_context_used := some (web_context != "") },
     hist ++ [{ question := question, answer := formatted,
                question_type := question_type, sources := sources,
                timestamp := now }])

/-- C8: when validation rejects a question, `ask` returns the validation
message as the answer with no sources, the error marker as the question
type (none of the five categories) and zero processing time — and this
before any processing: the result and the unchanged history are
independent of the context oracle, the completion oracle, the search
switch and the clock, so no classification, aggregation, completion call
or history append takes place. -/
theorem c8_ask_rejects_before_processing :
    ∀ (getContext genText : String → String) (isInit : Bool) (now elapsed : Nat)
      (include_web_search : Bool) (hist : List Turn) (question : String),
      (validate_input question).1 = false →
      ask getContext genText isInit now elapsed include_web_search hist question =
        ({ answer := (validate_input question).2, sources := [],
           question_type := "error", processing_time := 0,
           web_context_used := none }, hist) := by
  intro gc gt ii n e iw hist q h
  unfold ask
  rw [if_pos h]

/-- Witness for C8: the empty question with concrete oracles. -/
theorem c8_ask_rejects_before_processing_witness :
    ask (fun _ => "some context") (fun _ => "some completion") true 7 5 true [] "" =
      ({ answer := "Please enter a question.", sources := [],
         question_type := "error", processing_time := 0,
         web_context_used := none }, []) := by
  rw [c8_ask_rejects_before_processing (fun _ => "some context")
    (fun _ => "some completion") true 7 5 true [] "" (by decide)]
  decide
